import Mathlib

/-!
Shallow embedding of `src/ls2yolo.py` (Label Studio video annotations → YOLO
export).  Python `Decimal` values are embedded value-faithfully as
coefficient × 10^exponent pairs (`Dec`), with every arithmetic operation
rounding its exact result to the default decimal context of the program:
28 significant digits, round-half-even.  The rounded value of an
operation is determined by the exact value of its operands alone, so the
embedding tracks values and not coefficient representations (trailing
zeros and ideal exponents are not preserved; no claim under study depends
on the decimal rendering of a coordinate, only on its value).
Python dicts keyed by frame number are embedded as association lists
`List (Nat × _)` kept in insertion order; fallible operations (list
indexing, `max` of an empty dict, `raise ValueError`, dict `KeyError`)
return `Except String _`.
-/

deriving instance DecidableEq for Except

namespace LS2Yolo

/-- A Python `Decimal` value: the rational `c * 10^e`. -/
structure Dec where
  c : ℤ
  e : ℤ
  deriving DecidableEq, Repr

/-- Number of decimal digits of `n` (1 for 0), i.e. `len(str(n))`. -/
def decDigits (n : Nat) : Nat := (Nat.repr n).length

/-- Round `n / p` to the nearest integer, ties to even —
`ROUND_HALF_EVEN`, the default rounding of the `decimal` module. -/
def roundHalfEven (n p : Nat) : Nat :=
  let q := n / p
  let r := n % p
  if 2 * r > p then q + 1
  else if 2 * r < p then q
  else if q % 2 = 0 then q else q + 1

/-- Round the exact result `c * 10^e` of an operation to the context
precision of 28 significant digits (the `decimal` module's default),
half-even.  Dropping `k` trailing digits of the coefficient rounds the
value at position `e + k`, which is the 28-significant-digit position
because `10^(digits-1) ≤ |c| < 10^digits`. -/
def roundDec (c : ℤ) (e : ℤ) : Dec :=
  let digits := decDigits c.natAbs
  if digits ≤ 28 then ⟨c, e⟩
  else
    let k := digits - 28
    let m := roundHalfEven c.natAbs (10 ^ k)
    ⟨if c < 0 then -(m : ℤ) else (m : ℤ), e + k⟩

/-- Decimal addition: the exact sum rounded to context precision. -/
def decAdd (a b : Dec) : Dec :=
  let emin := min a.e b.e
  roundDec (a.c * 10 ^ (a.e - emin).toNat + b.c * 10 ^ (b.e - emin).toNat) emin

/-- Decimal subtraction: the exact difference rounded to context
precision. -/
def decSub (a b : Dec) : Dec :=
  decAdd a ⟨-b.c, b.e⟩

/-- Decimal multiplication: the exact product rounded to context
precision. -/
def decMul (a b : Dec) : Dec :=
  roundDec (a.c * b.c) (a.e + b.e)

/-- Decimal division: the exact quotient correctly rounded to 28
significant digits, half-even.  `bigE` is the unique exponent with
`10^(bigE-1) ≤ |a/b| < 10^bigE`, so `bigN / bigD` scales the quotient
into `[10^27, 10^28]` before rounding to an integer.  (Division by zero
raises in Python; it is unreachable in the program — divisors are the
positive keyframe gap and the constants 2 and 100 — and is given the
junk value 0 here.) -/
def decDiv (a b : Dec) : Dec :=
  if a.c = 0 then ⟨0, 0⟩
  else if b.c = 0 then ⟨0, 0⟩
  else
    let n := a.c.natAbs
    let d := b.c.natAbs
    let e0 : ℤ := (decDigits n : ℤ) - (decDigits d : ℤ)
    let bigE : ℤ := if n * 10 ^ (-e0).toNat < d * 10 ^ e0.toNat then e0 else e0 + 1
    let bigN := n * 10 ^ (28 - bigE).toNat
    let bigD := d * 10 ^ (bigE - 28).toNat
    let m := roundHalfEven bigN bigD
    let neg := (a.c < 0) ≠ (b.c < 0)
    ⟨if neg then -(m : ℤ) else (m : ℤ), a.e - b.e + bigE - 28⟩

/-- The decimal of a non-negative integer, `Decimal(n)`. -/
def Dec.ofNat (n : Nat) : Dec := ⟨n, 0⟩

/-- The exact rational value of a decimal. -/
def Dec.toRat (d : Dec) : ℚ :=
  if 0 ≤ d.e then (d.c : ℚ) * (10 : ℚ) ^ d.e.toNat
  else (d.c : ℚ) / (10 : ℚ) ^ (-d.e).toNat

/-- One entry of `subject['sequence']`: the keys the script reads are
`frame`, `x`, `y`, `width`, `height`, `time`, `enabled`.  The numeric
fields are `Decimal`s (`parse_float=Decimal` at line 163; integer JSON
fields are promoted on first contact with a `Decimal`). -/
structure Seq where
  frame : Nat
  x : Dec
  y : Dec
  width : Dec
  height : Dec
  time : Dec
  enabled : Bool
  deriving DecidableEq, Repr

/-- One entry of `video_label['box']`: keys `labels`, `sequence` and the
optional `framesCount`. -/
structure Subject where
  labels : List String
  framesCount : Option Nat
  sequence : List Seq
  deriving DecidableEq, Repr

/-- One element of the parsed JSON list: keys `video` and `box`. -/
structure VideoLabel where
  video : String
  box : List Subject
  deriving DecidableEq, Repr

/-- One exported label line `[label, x, y, width, height]` (the script
stores the four coordinates as strings; we keep the `Decimal` values
they render). -/
structure Line where
  label : Nat
  cx : Dec
  cy : Dec
  w : Dec
  h : Dec
  deriving DecidableEq, Repr

/-- The dict `files_dict`: frame number → label lines, in insertion order. -/
abbrev FilesDict := List (Nat × List Line)

/-- Lines 21–35 of `ls2yolo.py`: for each `frame` in `range(a0+1, a1)`
compute `t = (frame-a0)/(a1-a0)` and interpolate each of the four box
dimensions as `b0 + t*(b1-b0)`.  Returns the dict `frames_info` as an
association list in ascending frame order (Python dict insertion order). -/
def linear_interpolation (prev_seq seq : Seq) (label : Nat) : List (Nat × Line) :=
  (List.range' (prev_seq.frame + 1) (seq.frame - (prev_seq.frame + 1))).map fun (frame : Nat) =>
    let t : Dec := decDiv (Dec.ofNat (frame - prev_seq.frame)) (Dec.ofNat (seq.frame - prev_seq.frame))
    (frame,
      { label := label
        cx := decAdd prev_seq.x (decMul t (decSub seq.x prev_seq.x))
        cy := decAdd prev_seq.y (decMul t (decSub seq.y prev_seq.y))
        w := decAdd prev_seq.width (decMul t (decSub seq.width prev_seq.width))
        h := decAdd prev_seq.height (decMul t (decSub seq.height prev_seq.height)) })

/-- Lines 79–85: the in-place normalization of one sequence entry —
`x += width/2`, `y += height/2`, then all four coordinates `/= 100`. -/
def normalizeSeq (seq : Seq) : Seq :=
  let x := decAdd seq.x (decDiv seq.width ⟨2, 0⟩)
  let y := decAdd seq.y (decDiv seq.height ⟨2, 0⟩)
  { seq with
    x := decDiv x ⟨100, 0⟩
    y := decDiv y ⟨100, 0⟩
    width := decDiv seq.width ⟨100, 0⟩
    height := decDiv seq.height ⟨100, 0⟩ }

/-- Lines 87–91: interpolated lines are produced only when there is a
previous sequence entry, `prev_seq['enabled']` holds, and
`frame - prev_seq['frame'] > 1`; otherwise `lines` starts empty. -/
def interpLines (prevSeq : Option Seq) (seq : Seq) (label : Nat) : List (Nat × Line) :=
  match prevSeq with
  | some p => if p.enabled = true ∧ seq.frame - p.frame > 1 then linear_interpolation p seq label else []
  | none => []

/-- Line 94: the exact-keyframe line `[label] + [x, y, width, height]`. -/
def keyLine (seq : Seq) (label : Nat) : Line :=
  { label := label, cx := seq.x, cy := seq.y, w := seq.width, h := seq.height }

/-- Lines 87–94: the dict `lines` after the keyframe's own entry
`lines[frame] = ...` is added.  The interpolated keys are all strictly
below `seq.frame`, so in Python the assignment appends a fresh key; dict
insertion order puts it last. -/
def seqLines (prevSeq : Option Seq) (seq : Seq) (label : Nat) : List (Nat × Line) :=
  interpLines prevSeq seq label ++ [(seq.frame, keyLine seq label)]

/-- Lines 97–101: `files_dict[frame].append(info)` resp.
`files_dict[frame] = [info]`. -/
def addLine (fd : FilesDict) (frame : Nat) (info : Line) : FilesDict :=
  if fd.any (fun p => p.1 = frame) then
    fd.map (fun p => if p.1 = frame then (p.1, p.2 ++ [info]) else p)
  else
    fd ++ [(frame, info :: [])]

/-- Lines 76–106, one iteration of `for seq in subject['sequence']`:
normalize `seq` in place, build `lines`, merge into `files_dict`, set
`prev_seq = seq` (the normalized value). -/
def subjectStep (label : Nat) (acc : FilesDict × Option Seq) (rawSeq : Seq) :
    FilesDict × Option Seq :=
  let seq := normalizeSeq rawSeq
  let lines := seqLines acc.2 seq label
  (lines.foldl (fun d fi => addLine d fi.1 fi.2) acc.1, some seq)

/-- Lines 63–106, one iteration of `for subject in copy.deepcopy(...)`:
the single-label check (raises `ValueError` otherwise), the
`labels_dict` lookup (a missing key is a `KeyError`), then the fold over
the subject's sequence. -/
def processSubject (labels : List String) (fd : FilesDict) (s : Subject) :
    Except String FilesDict :=
  match s.labels with
  | [lstr] =>
    match labels.indexOf? lstr with
    | some label => .ok (s.sequence.foldl (subjectStep label) (fd, none)).1
    | none => .error "KeyError"
  | _ => .error "Each subject must have exactly one label."

/-- Lines 59–106: the whole subject loop, starting from empty dicts. -/
def processBox (labels : List String) (box : List Subject) : Except String FilesDict :=
  box.foldlM (processSubject labels) []

/-- Lines 42–47: `max_frames` is the maximum declared `framesCount` over
the subjects (0 when no subject declares one). -/
def maxFrames (box : List Subject) : Nat :=
  box.foldl (fun m s => match s.framesCount with
    | some c => if c > m then c else m
    | none => m) 0

/-- Assignment `availableFrames[i] = True`; a Python list assignment raises
`IndexError` out of range. -/
def setIdx (mask : List Bool) (i : Nat) : Except String (List Bool) :=
  if i < mask.length then .ok (mask.set i true) else .error "IndexError"

/-- Read of `availableFrames[frame]`; raises `IndexError` out of range. -/
def maskGet (mask : List Bool) (i : Nat) : Except String Bool :=
  if h : i < mask.length then .ok (mask.get ⟨i, h⟩) else .error "IndexError"

/-- Lines 55–56: `for i in range(start_frame, end_frame): availableFrames[i] = True`. -/
def markRange (mask : List Bool) (start stop : Nat) : Except String (List Bool) :=
  (List.range' start (stop - start)).foldlM setIdx mask

/-- Lines 52–56 for one subject: read
`subject['sequence'][0]['frame']` and `subject['sequence'][-1]['frame']`
(an empty `sequence` raises `IndexError`) and mark the half-open range. -/
def availStep (m : List Bool) (s : Subject) : Except String (List Bool) :=
  match s.sequence with
  | [] => .error "IndexError"
  | first :: rest => markRange m first.frame ((first :: rest).getLast (by simp)).frame

/-- Lines 50–56: build `availableFrames` of size `max_frames+1` and mark
each subject's `[first keyframe frame, last keyframe frame)`. -/
def buildAvailable (box : List Subject) : Except String (List Bool) :=
  box.foldlM availStep (List.replicate (maxFrames box + 1) false)

/-- Whether `frame` lies in the subject's `[first, last)` keyframe range. -/
def subjRange (s : Subject) (frame : Nat) : Bool :=
  match s.sequence with
  | [] => false
  | first :: rest =>
    decide (first.frame ≤ frame) && decide (frame < ((first :: rest).getLast (by simp)).frame)

/-- The first keyframe frame number of a subject (0 for an empty track). -/
def firstFrame (s : Subject) : Nat :=
  match s.sequence with
  | [] => 0
  | first :: _ => first.frame

/-- The last keyframe frame number of a subject (0 for an empty track). -/
def lastFrame (s : Subject) : Nat :=
  match s.sequence with
  | [] => 0
  | first :: rest => ((first :: rest).getLast (by simp)).frame

/-- Whether `frame` lies in some subject's `[first, last)` keyframe range. -/
def frameInRanges (box : List Subject) (frame : Nat) : Bool :=
  box.any (subjRange · frame)

/-- Line 109: `files_dict = dict(sorted(files_dict.items()))` — Python's
`sorted` by ascending key (the keys of a dict are distinct, so any sort by
key produces the same list; we use insertion sort). -/
def sortFD (fd : FilesDict) : FilesDict :=
  List.insertionSort (fun a b => a.1 ≤ b.1) fd

/-- Line 118: `max(files_dict.keys())`; `max` of an empty dict raises
`ValueError`. -/
def maxKeyE (fd : FilesDict) : Except String Nat :=
  match fd.map Prod.fst with
  | [] => .error "ValueError"
  | k :: ks => .ok (ks.foldl max k)

/-- Zero padding as done by Python's `f'{n:0{padding}d}'`: pad the decimal
digits of `n` with leading zeros up to width `padding`. -/
def zeroPad (n padding : Nat) : String :=
  let s := Nat.repr n
  String.mk (List.replicate (padding - s.length) '0') ++ s

/-- Line 124: the label artifact name `frame_{offset+frame:0{padding}d}.txt`. -/
def fileName (offset frame padding : Nat) : String :=
  "frame_" ++ zeroPad (offset + frame) padding ++ ".txt"

/-- One iteration of the write loop (lines 122–126): read
`availableFrames[frame]` and, when set, write the label file. -/
def writeStep (mask : List Bool) (offset padding : Nat)
    (acc : List (Nat × String)) (p : Nat × List Line) :
    Except String (List (Nat × String)) := do
  let avail ← maskGet mask p.1
  pure (if avail then acc ++ [(p.1, fileName offset p.1 padding)] else acc)

/-- Lines 122–126: write one label file per frame of `files_dict` whose
`availableFrames[frame]` flag is set.  We record, per written file, the
local frame number alongside the file name. -/
def writeLabels (fd : FilesDict) (mask : List Bool) (offset padding : Nat) :
    Except String (List (Nat × String)) :=
  fd.foldlM (writeStep mask offset padding) []

/-- The frame keys of the per-frame label map of one video. -/
def fdKeys (labels : List String) (box : List Subject) : Except String (List Nat) := do
  let fd ← processBox labels box
  pure (fd.map Prod.fst)

/-- The value `max(files_dict.keys())` of one video's sorted label map, as computed
at line 118. -/
def localMaxKey (labels : List String) (box : List Subject) : Except String Nat := do
  let fd ← processBox labels box
  maxKeyE (sortFD fd)

/-- Lines 37–144, `main(video_label, output_base, offset, labels)`:
availability mask, subject loop, sort, padding from `max(files_dict.keys())`,
label writing, and the return value `offset + len(files_dict)`.  Image
extraction (lines 129–140) decodes frames through OpenCV under the same
`availableFrames[frame]` gate and is external I/O, not modelled. -/
def mainRun (labels : List String) (v : VideoLabel) (offset : Nat) :
    Except String (List (Nat × String) × Nat) := do
  let mask ← buildAvailable v.box
  let fd ← processBox labels v.box
  let maxFrame ← maxKeyE (sortFD fd)
  let files ← writeLabels (sortFD fd) mask offset (Nat.repr maxFrame).length
  pure (files, offset + (sortFD fd).length)

/-- Lines 183–186, the driver loop:
`frame_count += main(video_label, args.output_base, frame_count, labels)`. -/
def driveVideos (labels : List String) (frameCount : Nat) (vs : List VideoLabel) :
    Except String Nat :=
  vs.foldlM (fun fc v => do
    let r ← mainRun labels v fc
    pure (fc + r.2)) frameCount

/-- Lines 174–179: `labels = set(); ...; labels.add(*subject['labels']); labels = sorted(labels)`
— the sorted set of all labels seen.  The argument is the flattened list
of single-subject labels in input order. -/
def sortedLabels (ls : List String) : List String :=
  ls.toFinset.sort (· ≤ ·)

/-- Line 39: `labels_dict = {k: i for i, k in enumerate(labels)}` followed
by lookup; on the duplicate-free output of `sorted(set(...))` the dict maps
each label to its position. -/
def labelIndex (labels : List String) (k : String) : Option Nat :=
  labels.indexOf? k

/-- The value of one subject record after the sequence loop (lines 76–106)
has run over it: every sequence entry was normalized in place by
lines 80–85. -/
def mutatedSubject (s : Subject) : Subject :=
  { s with sequence := s.sequence.map normalizeSeq }

/-- The post-state of the list of subject records the loop at line 63
iterates over, after the whole loop. -/
def subjectLoopPost (box : List Subject) : List Subject :=
  box.map mutatedSubject

/-- Function `main` as an explicit state-passing function: the second component is
the state of the caller's `video_label` record after the call.  Line 63
iterates over `copy.deepcopy(video_label['box'])`, so the in-place
normalization applies to the copy, which is discarded; no statement of
`main` writes into `video_label`, so its post-state is the input value. -/
def mainFull (labels : List String) (v : VideoLabel) (offset : Nat) :
    Except String (List (Nat × String) × Nat) × VideoLabel :=
  (mainRun labels v offset, v)

/-- Counterfactual post-state of `video_label` had line 63 iterated over
`video_label['box']` directly (no `copy.deepcopy`): the in-place
normalization of lines 80–85 would write through to the input's subjects. -/
def mainPostNoDeepcopy (v : VideoLabel) : VideoLabel :=
  { v with box := subjectLoopPost v.box }

/-! ### Concrete inputs used by witnesses and counterexamples -/

/-- A sequence entry with the given frame and raw box. -/
def mkSeq (f : Nat) (x y w h : Dec) (en : Bool) : Seq :=
  { frame := f, x := x, y := y, width := w, height := h, time := ⟨0, 0⟩, enabled := en }

/-- Keyframe `P` of the spec's interpolation example, already in
normalized center form: frame 0, box (0.5, 0.5, 0.2, 0.2). -/
def Pex : Seq := mkSeq 0 ⟨5, -1⟩ ⟨5, -1⟩ ⟨2, -1⟩ ⟨2, -1⟩ true

/-- Keyframe `Pex` with the enabled flag cleared. -/
def PexOff : Seq := mkSeq 0 ⟨5, -1⟩ ⟨5, -1⟩ ⟨2, -1⟩ ⟨2, -1⟩ false

/-- Keyframe `C` of the spec's interpolation example: frame 4,
box (0.9, 0.5, 0.2, 0.2). -/
def Cex : Seq := mkSeq 4 ⟨9, -1⟩ ⟨5, -1⟩ ⟨2, -1⟩ ⟨2, -1⟩ true

/-- A disabled current keyframe three frames after `Pex`. -/
def Cdis : Seq := mkSeq 3 ⟨9, -1⟩ ⟨5, -1⟩ ⟨2, -1⟩ ⟨2, -1⟩ false

/-- Keyframe `P` of the gap-3 rounding example: frame 0, center-x 0. -/
def P3 : Seq := mkSeq 0 ⟨0, 0⟩ ⟨0, 0⟩ ⟨0, 0⟩ ⟨0, 0⟩ true

/-- Keyframe `C` of the gap-3 rounding example: frame 3, center-x 1.
The interpolation fraction for frame 1 is 1/3, which is not
representable in 28 significant decimal digits. -/
def C3 : Seq := mkSeq 3 ⟨1, 0⟩ ⟨0, 0⟩ ⟨0, 0⟩ ⟨0, 0⟩ true

/-- A video with one subject labelled `"a"`, `framesCount` 3, and enabled
keyframes at frames 1, 2 and 3: its per-frame label map has keys
{1, 2, 3} and its exported (available) frames are {1, 2}. -/
def vA : VideoLabel :=
  { video := "a.mp4"
    box := [{ labels := ["a"], framesCount := some 3,
              sequence := [mkSeq 1 ⟨10, 0⟩ ⟨10, 0⟩ ⟨10, 0⟩ ⟨10, 0⟩ true, mkSeq 2 ⟨10, 0⟩ ⟨10, 0⟩ ⟨10, 0⟩ ⟨10, 0⟩ true,
                           mkSeq 3 ⟨10, 0⟩ ⟨10, 0⟩ ⟨10, 0⟩ ⟨10, 0⟩ true] }] }

/-- A video whose single subject declares no `framesCount` and has
keyframes at frames 0 and 2. -/
def boxNoCount : List Subject :=
  [{ labels := ["a"], framesCount := none,
     sequence := [mkSeq 0 ⟨10, 0⟩ ⟨10, 0⟩ ⟨10, 0⟩ ⟨10, 0⟩ true, mkSeq 2 ⟨10, 0⟩ ⟨10, 0⟩ ⟨10, 0⟩ ⟨10, 0⟩ true] }]

/-- A video with one subject labelled `"a"`, `framesCount` 6, and enabled
keyframes at frames 0 and 5: the label map has keys {0,…,5}
(interpolation fills 1–4) and frames {0,…,4} are available. -/
def v9 : VideoLabel :=
  { video := "b.mp4"
    box := [{ labels := ["a"], framesCount := some 6,
              sequence := [mkSeq 0 ⟨10, 0⟩ ⟨10, 0⟩ ⟨10, 0⟩ ⟨10, 0⟩ true, mkSeq 5 ⟨20, 0⟩ ⟨20, 0⟩ ⟨10, 0⟩ ⟨10, 0⟩ true] }] }

/-- A subject with two labels, violating the single-label invariant. -/
def sBad : Subject :=
  { labels := ["a", "b"], framesCount := some 3,
    sequence := [mkSeq 1 ⟨10, 0⟩ ⟨10, 0⟩ ⟨10, 0⟩ ⟨10, 0⟩ true] }

/-- A video with no subjects: its per-frame label map is empty, so
`max(files_dict.keys())` at line 118 raises `ValueError`. -/
def vEmpty : VideoLabel :=
  { video := "c.mp4", box := [] }

/-! ### Helper lemmas -/

/-- Looking up `f` in the association list built over `range' s n` by
pairing each element with `g` of it yields `some (g f)` whenever
`s ≤ f < s + n`. -/
lemma lookup_map_range' {β : Type} (g : Nat → β) :
    ∀ (n s f : Nat), s ≤ f → f < s + n →
      ((List.range' s n).map fun a => (a, g a)).lookup f = some (g f) := by
  intro n
  induction n with
  | zero => intro s f h1 h2; omega
  | succ n ih =>
    intro s f h1 h2
    rw [List.range'_succ, List.map_cons]
    by_cases hf : f = s
    · subst hf; simp [List.lookup]
    · have hbeq : (f == s) = false := by simp [hf]
      simp only [List.lookup, hbeq]
      exact ih (s + 1) f (by omega) (by omega)

/-- The frame keys of `linear_interpolation` are exactly
`range(a0+1, a1)`. -/
lemma linear_interpolation_keys (p c : Seq) (label : Nat) :
    (linear_interpolation p c label).map Prod.fst =
      List.range' (p.frame + 1) (c.frame - (p.frame + 1))  := by
  rw [linear_interpolation, List.map_map]
  exact List.map_id _

/-- C2 counterexample: for `P` at frame 0 with center-x 0 and `C` at
frame 3 with center-x 1, the code computes
`t = Decimal(1)/Decimal(3) = 0.3333333333333333333333333333` (the
correctly rounded 28-digit quotient) for frame 1, so the interpolated
center-x is `0.3333333333333333333333333333`, which differs from the
exact line value `P.x + (1-0)/(3-0) · (C.x - P.x) = 1/3`: the claim's
"computed exactly" fails for every gap whose fraction is not
representable in 28 significant decimal digits. -/
theorem interpolation_linear_counterexample :
    (linear_interpolation P3 C3 0).lookup 1 =
      some { label := 0
             cx := ⟨3333333333333333333333333333, -28⟩
             cy := ⟨0, -28⟩, w := ⟨0, -28⟩, h := ⟨0, -28⟩ }
    ∧ Dec.toRat ⟨3333333333333333333333333333, -28⟩ ≠
        Dec.toRat P3.x + (((1 : ℚ) - (P3.frame : ℚ)) / ((C3.frame : ℚ) - (P3.frame : ℚ)))
          * (Dec.toRat C3.x - Dec.toRat P3.x) := by
  constructor
  · decide
  · unfold Dec.toRat
    norm_num [P3, C3, mkSeq, show Int.toNat 28 = 28 from rfl]

/-- C2 amended: the value interpolated at frame `f` strictly between the
two keyframes is `P.value + t × (C.value − P.value)` evaluated in the
program's decimal arithmetic (28 significant digits, half-even), with
`t = Decimal(f − P.frame) / Decimal(C.frame − P.frame)` the correctly
rounded 28-digit quotient — not the exact rational line.  The two
coincide whenever every intermediate result is representable in 28
significant digits, as in the spec's frame 0 → frame 4 example. -/
theorem interpolation_linear (p c : Seq) (label : Nat) (f : Nat)
    (h1 : p.frame < f) (h2 : f < c.frame) :
    (linear_interpolation p c label).lookup f =
      some { label := label
             cx := decAdd p.x (decMul (decDiv (Dec.ofNat (f - p.frame))
               (Dec.ofNat (c.frame - p.frame))) (decSub c.x p.x))
             cy := decAdd p.y (decMul (decDiv (Dec.ofNat (f - p.frame))
               (Dec.ofNat (c.frame - p.frame))) (decSub c.y p.y))
             w := decAdd p.width (decMul (decDiv (Dec.ofNat (f - p.frame))
               (Dec.ofNat (c.frame - p.frame))) (decSub c.width p.width))
             h := decAdd p.height (decMul (decDiv (Dec.ofNat (f - p.frame))
               (Dec.ofNat (c.frame - p.frame))) (decSub c.height p.height)) } :=
  lookup_map_range' _ (c.frame - (p.frame + 1)) (p.frame + 1) f (by omega) (by omega)

/-- C2 witness: for `P` at frame 0 with center-x 0.5 and `C` at frame 4
with center-x 0.9, every intermediate decimal computation is exact, and
the interpolated center-x values at frames 2, 1, 3 are exactly 0.7, 0.6
and 0.8 — frames 1 and 3 lie exactly on the line. -/
theorem interpolation_linear_witness :
    (linear_interpolation Pex Cex 0).lookup 2 =
      some { label := 0
             cx := ⟨7000000000000000000000000000, -28⟩
             cy := ⟨5000000000000000000000000000, -28⟩
             w := ⟨2000000000000000000000000000, -28⟩
             h := ⟨2000000000000000000000000000, -28⟩ }
    ∧ Dec.toRat ⟨7000000000000000000000000000, -28⟩ = 7/10
    ∧ (linear_interpolation Pex Cex 0).lookup 1 =
      some { label := 0
             cx := ⟨6000000000000000000000000000, -28⟩
             cy := ⟨5000000000000000000000000000, -28⟩
             w := ⟨2000000000000000000000000000, -28⟩
             h := ⟨2000000000000000000000000000, -28⟩ }
    ∧ Dec.toRat ⟨6000000000000000000000000000, -28⟩ = 3/5
    ∧ (linear_interpolation Pex Cex 0).lookup 3 =
      some { label := 0
             cx := ⟨8000000000000000000000000000, -28⟩
             cy := ⟨5000000000000000000000000000, -28⟩
             w := ⟨2000000000000000000000000000, -28⟩
             h := ⟨2000000000000000000000000000, -28⟩ }
    ∧ Dec.toRat ⟨8000000000000000000000000000, -28⟩ = 4/5 := by
  refine ⟨?_, ?_, ?_, ?_, ?_, ?_⟩
  · rw [interpolation_linear Pex Cex 0 2 (by decide) (by decide)]
    decide
  · unfold Dec.toRat
    norm_num [show Int.toNat 28 = 28 from rfl]
  · rw [interpolation_linear Pex Cex 0 1 (by decide) (by decide)]
    decide
  · unfold Dec.toRat
    norm_num [show Int.toNat 28 = 28 from rfl]
  · rw [interpolation_linear Pex Cex 0 3 (by decide) (by decide)]
    decide
  · unfold Dec.toRat
    norm_num [show Int.toNat 28 = 28 from rfl]

/-- A disabled predecessor produces no interpolated lines. -/
lemma interpLines_of_disabled (p c : Seq) (label : Nat) (h : p.enabled = false) :
    interpLines (some p) c label = [] := by
  show (if p.enabled = true ∧ c.frame - p.frame > 1 then
      linear_interpolation p c label else []) = []
  rw [if_neg]
  intro hc
  rw [h] at hc
  exact Bool.false_ne_true hc.1

/-- Adjacent keyframes produce no interpolated lines. -/
lemma interpLines_of_adjacent (p c : Seq) (label : Nat) (h : c.frame - p.frame = 1) :
    interpLines (some p) c label = [] := by
  show (if p.enabled = true ∧ c.frame - p.frame > 1 then
      linear_interpolation p c label else []) = []
  rw [if_neg]
  intro hc
  omega

/-- C3: interpolated lines for the gap before keyframe `C` exist exactly
when a predecessor `P` exists, `P.enabled` holds and
`C.frame − P.frame > 1`, and then exactly at the frames strictly between
`P.frame` and `C.frame`; a disabled `P`, an adjacent pair, or a first
keyframe produce no interpolated lines. -/
theorem interp_trigger_policy (p c : Seq) (label : Nat) (f : Nat) :
    (f ∈ (interpLines (some p) c label).map Prod.fst ↔
      p.enabled = true ∧ c.frame - p.frame > 1 ∧ p.frame < f ∧ f < c.frame)
    ∧ (p.enabled = false → interpLines (some p) c label = [])
    ∧ (c.frame - p.frame = 1 → interpLines (some p) c label = [])
    ∧ interpLines none c label = [] := by
  refine ⟨?_, ?_, ?_, rfl⟩
  · show (f ∈ (if p.enabled = true ∧ c.frame - p.frame > 1 then
        linear_interpolation p c label else []).map Prod.fst ↔ _)
    by_cases hcond : p.enabled = true ∧ c.frame - p.frame > 1
    · rw [if_pos hcond, linear_interpolation_keys, List.mem_range'_1]
      constructor
      · intro hmem
        exact ⟨hcond.1, hcond.2, by omega, by omega⟩
      · intro hrhs
        have := hrhs.2.1
        have := hrhs.2.2.1
        have := hrhs.2.2.2
        omega
    · rw [if_neg hcond]
      simp only [List.map_nil, List.not_mem_nil, false_iff]
      intro h
      exact hcond ⟨h.1, h.2.1⟩
  · exact interpLines_of_disabled p c label
  · exact interpLines_of_adjacent p c label

/-- C3 witness: with enabled `P` at frame 0 and `C` at frame 4 the key 2
is interpolated; with `P` disabled, or with an adjacent pair, or with no
predecessor, nothing is. -/
theorem interp_trigger_policy_witness :
    2 ∈ (interpLines (some Pex) Cex 0).map Prod.fst
    ∧ interpLines (some PexOff) Cex 0 = []
    ∧ interpLines (some Pex) (mkSeq 1 ⟨0, 0⟩ ⟨0, 0⟩ ⟨0, 0⟩ ⟨0, 0⟩ true) 0 = []
    ∧ interpLines none Cex 0 = [] :=
  ⟨(interp_trigger_policy Pex Cex 0 2).1.mpr ⟨by decide, by decide, by decide, by decide⟩,
   (interp_trigger_policy PexOff Cex 0 0).2.1 (by decide),
   (interp_trigger_policy Pex (mkSeq 1 ⟨0, 0⟩ ⟨0, 0⟩ ⟨0, 0⟩ ⟨0, 0⟩ true) 0 0).2.2.1 (by decide),
   (interp_trigger_policy Pex Cex 0 0).2.2.2⟩

/-- C4 counterexample: `Cdis` is a disabled keyframe three frames after
the enabled `Pex`, yet the code synthesizes interpolated entries for the
intermediate frames 1 and 2 — the interpolation guard at line 88 reads
`prev_seq['enabled']`, never the current keyframe's flag. -/
theorem disabled_current_counterexample :
    Cdis.enabled = false
    ∧ (interpLines (some Pex) Cdis 0).map Prod.fst = [1, 2] := by
  exact ⟨rfl, by decide⟩

/-- Bind on a successful `Except` computation. -/
lemma ok_bind {α β : Type} (a : α) (k : α → Except String β) :
    ((Except.ok a : Except String α) >>= k) = k a := rfl

/-- Bind on a failed `Except` computation. -/
lemma error_bind {α β : Type} (e : String) (k : α → Except String β) :
    ((Except.error e : Except String α) >>= k) = .error e := rfl

/-- Unpacking a successful `setIdx`. -/
lemma setIdx_ok {mask mask' : List Bool} {i : Nat} (h : setIdx mask i = .ok mask') :
    i < mask.length ∧ mask' = mask.set i true := by
  unfold setIdx at h
  split at h
  · cases h
    exact ⟨by assumption, rfl⟩
  · cases h

/-- A successful fold of `setIdx` over an index list sets exactly the
listed indices, and preserves the length. -/
lemma foldlM_setIdx_ok : ∀ (l : List Nat) (m m' : List Bool),
    l.foldlM setIdx m = .ok m' →
    m'.length = m.length ∧ ∀ j, m'.getD j false = (m.getD j false || decide (j ∈ l)) := by
  intro l
  induction l with
  | nil =>
    intro m m' h
    cases h
    exact ⟨rfl, fun j => by simp⟩
  | cons i rest ih =>
    intro m m' h
    rw [List.foldlM_cons] at h
    cases hset : setIdx m i with
    | error e => rw [hset] at h; cases h
    | ok m1 =>
      rw [hset] at h
      obtain ⟨hi, hm1⟩ := setIdx_ok hset
      subst hm1
      obtain ⟨hlen, hval⟩ := ih _ _ h
      refine ⟨by rw [hlen, List.length_set], fun j => ?_⟩
      rw [hval j, List.getD_eq_getElem?_getD, List.getElem?_set,
        List.getD_eq_getElem?_getD (l := m)]
      by_cases hji : i = j
      · subst hji
        simp [hi, List.mem_cons]
      · rw [if_neg hji]
        congr 1
        apply decide_eq_decide.mpr
        rw [List.mem_cons]
        exact (or_iff_right fun hc => hji (Eq.symm hc)).symm

/-- A successful `markRange` marks exactly `[start, stop)` on top of the
existing marks, preserving the length. -/
lemma markRange_ok {m m' : List Bool} {s e : Nat} (h : markRange m s e = .ok m') :
    m'.length = m.length ∧
      ∀ j, m'.getD j false = (m.getD j false || (decide (s ≤ j) && decide (j < e))) := by
  obtain ⟨hlen, hval⟩ := foldlM_setIdx_ok _ _ _ h
  refine ⟨hlen, fun j => ?_⟩
  rw [hval j]
  congr 1
  rw [← Bool.decide_and]
  apply decide_eq_decide.mpr
  rw [List.mem_range'_1]
  omega

/-- A fold of `setIdx` succeeds whenever every index is in bounds. -/
lemma foldlM_setIdx_ok_of_bounds : ∀ (l : List Nat) (m : List Bool),
    (∀ j ∈ l, j < m.length) → ∃ m', l.foldlM setIdx m = .ok m' := by
  intro l
  induction l with
  | nil => intro m _; exact ⟨m, rfl⟩
  | cons i rest ih =>
    intro m hb
    have hi : i < m.length := hb i (by simp)
    have hset : setIdx m i = .ok (m.set i true) := by
      unfold setIdx
      rw [if_pos hi]
    rw [List.foldlM_cons, hset]
    have hrest : ∀ j ∈ rest, j < (m.set i true).length := by
      intro j hj
      rw [List.length_set]
      exact hb j (by simp [hj])
    obtain ⟨m', hm'⟩ := ih _ hrest
    exact ⟨m', hm'⟩

/-- Marking `markRange` succeeds whenever the range fits in the mask. -/
lemma markRange_ok_of_le {m : List Bool} {s e : Nat} (h : e ≤ m.length) :
    ∃ m', markRange m s e = .ok m' := by
  apply foldlM_setIdx_ok_of_bounds
  intro j hj
  rw [List.mem_range'_1] at hj
  omega

/-- Unpacking a successful `availStep`. -/
lemma availStep_ok {m m' : List Bool} {s : Subject} (h : availStep m s = .ok m') :
    m'.length = m.length ∧ ∀ j, m'.getD j false = (m.getD j false || subjRange s j) := by
  rcases hseq : s.sequence with _ | ⟨first, rest⟩
  · unfold availStep at h
    rw [hseq] at h
    cases h
  · unfold availStep at h
    rw [hseq] at h
    obtain ⟨hlen, hval⟩ := markRange_ok h
    refine ⟨hlen, fun j => ?_⟩
    rw [hval j]
    unfold subjRange
    rw [hseq]

/-- A successful fold of `availStep` marks exactly the union of the
subjects' ranges on top of the existing marks. -/
lemma foldlM_availStep_ok : ∀ (box : List Subject) (m m' : List Bool),
    box.foldlM availStep m = .ok m' →
    m'.length = m.length ∧ ∀ j, m'.getD j false = (m.getD j false || frameInRanges box j) := by
  intro box
  induction box with
  | nil =>
    intro m m' h
    cases h
    exact ⟨rfl, fun j => by simp [frameInRanges]⟩
  | cons s rest ih =>
    intro m m' h
    rw [List.foldlM_cons] at h
    cases hstep : availStep m s with
    | error e => rw [hstep] at h; cases h
    | ok m1 =>
      rw [hstep] at h
      obtain ⟨hlen1, hval1⟩ := availStep_ok hstep
      obtain ⟨hlen, hval⟩ := ih _ _ h
      refine ⟨hlen.trans hlen1, fun j => ?_⟩
      rw [hval j, hval1 j]
      simp only [frameInRanges, List.any_cons, Bool.or_assoc]

/-- A successful `buildAvailable` produces a mask of size
`maxFrames + 1` that is set exactly on the union of the subjects'
`[first, last)` ranges. -/
lemma buildAvailable_ok {box : List Subject} {mask : List Bool}
    (h : buildAvailable box = .ok mask) :
    mask.length = maxFrames box + 1 ∧
      ∀ j, mask.getD j false = frameInRanges box j := by
  obtain ⟨hlen, hval⟩ := foldlM_availStep_ok _ _ _ h
  refine ⟨by rw [hlen, List.length_replicate], fun j => ?_⟩
  rw [hval j, List.getD_eq_getElem?_getD, List.getElem?_replicate]
  by_cases hj : j < maxFrames box + 1 <;> simp [hj]

/-- Unpacking a successful `maskGet`. -/
lemma maskGet_ok {mask : List Bool} {i : Nat} {b : Bool} (h : maskGet mask i = .ok b) :
    i < mask.length ∧ b = mask.getD i false := by
  unfold maskGet at h
  split at h
  · cases h
    refine ⟨by assumption, ?_⟩
    rw [List.getD_eq_getElem?_getD, List.getElem?_eq_getElem (by assumption)]
    rfl
  · cases h

/-- A successful write loop writes exactly the frames of the map whose
mask flag is set, each under its `fileName`. -/
lemma foldlM_writeStep_ok : ∀ (fd : FilesDict) (mask : List Bool) (offset padding : Nat)
    (acc files : List (Nat × String)),
    fd.foldlM (writeStep mask offset padding) acc = .ok files →
    files = acc ++ (fd.filter (fun p => mask.getD p.1 false)).map
      (fun p => (p.1, fileName offset p.1 padding)) := by
  intro fd
  induction fd with
  | nil =>
    intro mask offset padding acc files h
    cases h
    simp
  | cons p rest ih =>
    intro mask offset padding acc files h
    rw [List.foldlM_cons] at h
    cases hget : maskGet mask p.1 with
    | error e =>
      exfalso
      unfold writeStep at h
      rw [hget] at h
      cases h
    | ok b =>
      obtain ⟨hi, hb⟩ := maskGet_ok hget
      have hstep : writeStep mask offset padding acc p =
          .ok (if b then acc ++ [(p.1, fileName offset p.1 padding)] else acc) := by
        unfold writeStep
        rw [hget]
        rfl
      rw [hstep] at h
      have := ih mask offset padding _ _ h
      rw [this, List.filter_cons]
      subst hb
      cases hm : mask.getD p.1 false <;> simp [hm]

/-- Unpacking a successful `writeLabels`. -/
lemma writeLabels_ok {fd : FilesDict} {mask : List Bool} {offset padding : Nat}
    {files : List (Nat × String)} (h : writeLabels fd mask offset padding = .ok files) :
    files = (fd.filter (fun p => mask.getD p.1 false)).map
      (fun p => (p.1, fileName offset p.1 padding)) :=
  foldlM_writeStep_ok fd mask offset padding [] files h

/-- C4 amended: whether interpolated entries are emitted for the gap
before `C` does not depend on `C`'s enabled flag at all (only `P.enabled`
and the gap width decide it); the exact keyframe line for `C` itself is
always emitted verbatim. -/
theorem disabled_current_amended (p c : Seq) (b : Bool) (label : Nat) :
    interpLines (some p) { c with enabled := b } label = interpLines (some p) c label
    ∧ (c.frame, keyLine c label) ∈ seqLines (some p) c label
    ∧ (p.enabled = false → interpLines (some p) c label = []) := by
  refine ⟨rfl, List.mem_append_right _ (List.mem_singleton_self _), ?_⟩
  exact interpLines_of_disabled p c label

/-- C4 amended witness: toggling `Cdis`'s flag changes nothing about the
interpolated entries, `Cdis`'s own keyframe line is emitted, and a
disabled predecessor yields no interpolated entries. -/
theorem disabled_current_amended_witness :
    interpLines (some Pex) { Cdis with enabled := true } 0 = interpLines (some Pex) Cdis 0
    ∧ (Cdis.frame, keyLine Cdis 0) ∈ seqLines (some Pex) Cdis 0
    ∧ interpLines (some PexOff) Cex 0 = [] :=
  ⟨(disabled_current_amended Pex Cdis true 0).1,
   (disabled_current_amended Pex Cdis true 0).2.1,
   (disabled_current_amended PexOff Cex true 0).2.2 rfl⟩

/-- C5: for a local frame number present in the per-frame label map of a
video, `main` writes its label artifact if and only if the frame lies in
the union over all subject tracks of the half-open
`[first keyframe, last keyframe)` range. -/
theorem availability_gating (labels : List String) (v : VideoLabel) (offset : Nat)
    (mask : List Bool) (keys : List Nat) (files : List (Nat × String)) (ret : Nat)
    (frame : Nat)
    (hmask : buildAvailable v.box = .ok mask)
    (hkeys : fdKeys labels v.box = .ok keys)
    (hrun : mainRun labels v offset = .ok (files, ret))
    (hfd : frame ∈ keys) :
    frame ∈ files.map Prod.fst ↔ frameInRanges v.box frame = true := by
  unfold fdKeys at hkeys
  cases hpb : processBox labels v.box with
  | error e => rw [hpb, error_bind] at hkeys; cases hkeys
  | ok fd =>
    rw [hpb, ok_bind] at hkeys
    cases hkeys
    unfold mainRun at hrun
    rw [hmask, ok_bind, hpb, ok_bind] at hrun
    cases hmax : maxKeyE (sortFD fd) with
    | error e => rw [hmax, error_bind] at hrun; cases hrun
    | ok maxFrame =>
      rw [hmax, ok_bind] at hrun
      cases hw : writeLabels (sortFD fd) mask offset (Nat.repr maxFrame).length with
      | error e => rw [hw, error_bind] at hrun; cases hrun
      | ok wfiles =>
        rw [hw, ok_bind] at hrun
        have hfiles : wfiles = files := by
          cases hrun
          rfl
        subst hfiles
        obtain ⟨hmlen, hmval⟩ := buildAvailable_ok hmask
        rw [writeLabels_ok hw, List.map_map]
        show frame ∈ ((sortFD fd).filter fun p => mask.getD p.1 false).map (fun p => p.1) ↔ _
        rw [List.mem_map]
        constructor
        · rintro ⟨p, hp, hpf⟩
          rw [List.mem_filter] at hp
          rw [← hmval frame, ← hpf]
          exact hp.2
        · intro hin
          rw [List.mem_map] at hfd
          obtain ⟨p, hp, hpf⟩ := hfd
          refine ⟨p, ?_, hpf⟩
          rw [List.mem_filter]
          refine ⟨((List.perm_insertionSort _ fd).symm.mem_iff).mp hp, ?_⟩
          rw [hpf, hmval frame]
          exact hin

/-- C5 witness: in `vA`, local frame 2 is inside the availability range
and is written; local frame 3 (the last keyframe) is in the label map
but outside every `[first, last)` range, and is not written. -/
theorem availability_gating_witness :
    (2 ∈ ([(1, "frame_1.txt"), (2, "frame_2.txt")] : List (Nat × String)).map Prod.fst ↔
      frameInRanges vA.box 2 = true)
    ∧ (3 ∈ ([(1, "frame_1.txt"), (2, "frame_2.txt")] : List (Nat × String)).map Prod.fst ↔
      frameInRanges vA.box 3 = true)
    ∧ frameInRanges vA.box 2 = true
    ∧ frameInRanges vA.box 3 = false :=
  ⟨availability_gating ["a"] vA 0 [false, true, true, false] [1, 2, 3]
      [(1, "frame_1.txt"), (2, "frame_2.txt")] 3 2
      (by decide) (by decide) (by decide) (by decide),
   availability_gating ["a"] vA 0 [false, true, true, false] [1, 2, 3]
      [(1, "frame_1.txt"), (2, "frame_2.txt")] 3 3
      (by decide) (by decide) (by decide) (by decide),
   by decide, by decide⟩

/-- C6 counterexample: a video whose single track declares no
`framesCount` and has keyframes at frames 0 and 2.  The claimed fallback
to the maximum observed keyframe frame number does not exist: the mask is
sized from the declared counts only (here 0, giving size 1), and marking
the track's `[0, 2)` range indexes outside the mask, raising
`IndexError`. -/
theorem mask_sizing_counterexample :
    maxFrames boxNoCount = 0
    ∧ boxNoCount.map lastFrame = [2]
    ∧ buildAvailable boxNoCount = .error "IndexError" :=
  ⟨rfl, by decide, by decide⟩

/-- A fold of `availStep` succeeds and preserves the mask length when
every subject has a nonempty sequence whose last frame fits. -/
lemma foldlM_availStep_ok_of_fit : ∀ (box : List Subject) (m : List Bool),
    (∀ s ∈ box, s.sequence ≠ [] ∧ lastFrame s ≤ m.length) →
    ∃ m', box.foldlM availStep m = .ok m' ∧ m'.length = m.length := by
  intro box
  induction box with
  | nil => intro m _; exact ⟨m, rfl, rfl⟩
  | cons s rest ih =>
    intro m hfit
    obtain ⟨hne, hle⟩ := hfit s (by simp)
    rcases hseq : s.sequence with _ | ⟨first, restSeq⟩
    · exact absurd hseq hne
    · have hlast : lastFrame s = ((first :: restSeq).getLast (by simp)).frame := by
        unfold lastFrame
        rw [hseq]
      have hstep : availStep m s =
          markRange m first.frame ((first :: restSeq).getLast (by simp)).frame := by
        unfold availStep
        rw [hseq]
      obtain ⟨m1, hm1⟩ := markRange_ok_of_le (m := m) (s := first.frame)
        (e := ((first :: restSeq).getLast (by simp)).frame) (by rw [← hlast]; exact hle)
      have hlen1 : m1.length = m.length := (markRange_ok hm1).1
      obtain ⟨m', hm', hlen'⟩ := ih m1 (by
        intro t ht
        rw [hlen1]
        exact hfit t (by simp [ht]))
      refine ⟨m', ?_, hlen'.trans hlen1⟩
      rw [List.foldlM_cons, hstep, hm1, ok_bind]
      exact hm'

/-- C6 amended: the availability mask always has size
`maxFrames + 1` where `maxFrames` is the maximum declared frame count
across the video's tracks (0 when no track declares one — there is no
fallback to the maximum observed keyframe frame number), and the marking
step stays inside the mask precisely under the extra assumption that each
track's last keyframe frame is at most `maxFrames + 1`; otherwise it
raises an index error. -/
theorem mask_sizing_amended (box : List Subject)
    (h : ∀ s ∈ box, s.sequence ≠ [] ∧ lastFrame s ≤ maxFrames box + 1) :
    ∃ mask, buildAvailable box = .ok mask ∧ mask.length = maxFrames box + 1 := by
  obtain ⟨mask, hmask, hlen⟩ := foldlM_availStep_ok_of_fit box
    (List.replicate (maxFrames box + 1) false)
    (by
      intro s hs
      rw [List.length_replicate]
      exact h s hs)
  exact ⟨mask, hmask, by rw [hlen, List.length_replicate]⟩

/-- C6 amended witness: `vA` declares `framesCount` 3 and its last
keyframe is frame 3 ≤ 4, so the mask is built successfully with size 4. -/
theorem mask_sizing_amended_witness :
    ∃ mask, buildAvailable vA.box = .ok mask ∧ mask.length = maxFrames vA.box + 1 :=
  mask_sizing_amended vA.box (by decide)

/-- C1: evaluation of the offset coordination at a failing input.
`vA`'s label map has 3 entries and 2 of its frames are exported.  Under
the claim, video 2 of `[vA, vA]` would receive offset 2 (the frames
exported by video 1) and the run would return 15 — here 2 + 2 = 4.  The
code instead hands video 2 offset 3 (because `main` returns
`offset + len(files_dict)`, counting all map entries, exported or not)
and the driver then executes `frame_count += main(...)`, adding the
returned value — which already contains the offset — on top of the
running count: the final result is 9, not 4.  A video that exports 0
frames (empty label map), as in the spec's 10/0/5 example, cannot even
complete: `max()` of the empty key set raises `ValueError`. -/
theorem offset_coordination_eval :
    mainRun ["a"] vA 0 = .ok ([(1, "frame_1.txt"), (2, "frame_2.txt")], 3)
    ∧ mainRun ["a"] vA 3 = .ok ([(1, "frame_4.txt"), (2, "frame_5.txt")], 6)
    ∧ driveVideos ["a"] 0 [vA, vA] = .ok 9
    ∧ driveVideos ["a"] 0 [vA, vA] ≠ .ok 4
    ∧ mainRun ["a"] vEmpty 0 = .error "ValueError" :=
  ⟨by decide, by decide, by decide, by decide, by decide⟩

/-- C7: the class list is the lexicographically sorted set of distinct
labels, the index of each label is its zero-based position in that
order, the mapping is invariant under reordering of the input, and the
spec's example `{"ball","refA","teamB"}` maps to indices 0, 1, 2. -/
theorem label_registry_stability (ls ls' : List String) (h : ls.Perm ls') :
    sortedLabels ls = sortedLabels ls'
    ∧ List.Sorted (· < ·) (sortedLabels ls)
    ∧ (∀ k : String, k ∈ sortedLabels ls ↔ k ∈ ls)
    ∧ sortedLabels ["teamB", "ball", "refA"] = ["ball", "refA", "teamB"]
    ∧ labelIndex ["ball", "refA", "teamB"] "ball" = some 0
    ∧ labelIndex ["ball", "refA", "teamB"] "refA" = some 1
    ∧ labelIndex ["ball", "refA", "teamB"] "teamB" = some 2 := by
  have htf : ls.toFinset = ls'.toFinset := by
    ext a
    simp [List.mem_toFinset, h.mem_iff]
  refine ⟨?_, Finset.sort_sorted_lt _, ?_, ?_, by decide, by decide, by decide⟩
  · unfold sortedLabels
    rw [htf]
  · intro k
    unfold sortedLabels
    rw [Finset.mem_sort, List.mem_toFinset]
  · unfold sortedLabels
    apply List.eq_of_perm_of_sorted (r := (· ≤ ·))
    · exact List.perm_of_nodup_nodup_toFinset_eq (Finset.sort_nodup _ _) (by decide)
        (by rw [Finset.sort_toFinset]; decide)
    · exact Finset.sort_sorted _ _
    · simp only [List.sorted_cons, List.mem_cons, List.mem_singleton, List.not_mem_nil]
      simp [String.le_iff_toList_le]
      decide

/-- C7 witness: two orders of the same label set produce the same
registry. -/
theorem label_registry_stability_witness :
    sortedLabels ["teamB", "ball"] = sortedLabels ["ball", "teamB"] :=
  (label_registry_stability ["teamB", "ball"] ["ball", "teamB"]
    (List.Perm.swap "ball" "teamB" [])).1

/-- A subject whose label list does not have exactly one element makes
`processSubject` raise. -/
lemma processSubject_error_of_bad (labels : List String) (fd : FilesDict) (s : Subject)
    (h : s.labels.length ≠ 1) : ∃ e, processSubject labels fd s = .error e := by
  rcases hl : s.labels with _ | ⟨l, rest⟩
  · refine ⟨"Each subject must have exactly one label.", ?_⟩
    unfold processSubject
    rw [hl]
  · rcases rest with _ | ⟨l2, rest2⟩
    · rw [hl] at h
      exact absurd rfl h
    · refine ⟨"Each subject must have exactly one label.", ?_⟩
      unfold processSubject
      rw [hl]

/-- The subject loop aborts whenever it contains a subject with a bad
label list. -/
lemma foldlM_processSubject_error : ∀ (box : List Subject) (labels : List String)
    (fd : FilesDict) (s : Subject), s ∈ box → s.labels.length ≠ 1 →
    ∃ e, box.foldlM (processSubject labels) fd = .error e := by
  intro box
  induction box with
  | nil =>
    intro _ _ _ hs
    cases hs
  | cons b rest ih =>
    intro labels fd s hs hlen
    rw [List.foldlM_cons]
    rcases List.mem_cons.mp hs with hb | hb
    · subst hb
      obtain ⟨e, he⟩ := processSubject_error_of_bad labels fd s hlen
      rw [he, error_bind]
      exact ⟨e, rfl⟩
    · cases hps : processSubject labels fd b with
      | error e => exact ⟨e, rfl⟩
      | ok fd' => exact ih labels fd' s hb hlen

/-- C8: a subject track with zero labels or more than one label makes the
per-video processing raise a fatal error — both the subject loop and the
whole of `main` return an error rather than exporting anything. -/
theorem single_label_enforcement (labels : List String) (v : VideoLabel) (offset : Nat)
    (s : Subject) (hs : s ∈ v.box) (hlen : s.labels.length ≠ 1) :
    (∃ e, processBox labels v.box = .error e)
    ∧ (∃ e, mainRun labels v offset = .error e) := by
  obtain ⟨e, he⟩ := foldlM_processSubject_error v.box labels [] s hs hlen
  refine ⟨⟨e, he⟩, ?_⟩
  cases hba : buildAvailable v.box with
  | error e' =>
    refine ⟨e', ?_⟩
    unfold mainRun
    rw [hba, error_bind]
  | ok mask =>
    refine ⟨e, ?_⟩
    unfold mainRun
    rw [hba, ok_bind, show processBox labels v.box = Except.error e from he, error_bind]

/-- C8 witness: a subject with two labels aborts the processing of its
video. -/
theorem single_label_enforcement_witness :
    (∃ e, processBox ["a", "b"] (VideoLabel.mk "x.mp4" [sBad]).box = .error e)
    ∧ (∃ e, mainRun ["a", "b"] (VideoLabel.mk "x.mp4" [sBad]) 0 = .error e) :=
  single_label_enforcement ["a", "b"] (VideoLabel.mk "x.mp4" [sBad]) 0 sBad
    (List.mem_singleton_self sBad) (by decide)

/-- C9 counterexample: in `v9` processed at offset 96, the padding is
computed from the video's largest local frame key (5, width 1), not from
the largest global index of the run (100, width 3): local frame 0 is
written as `frame_96.txt`, not `frame_096.txt`, and lexicographic
filename order then disagrees with numeric order, since 96 < 100 but
`frame_100.txt` sorts before `frame_96.txt`. -/
theorem filename_padding_counterexample :
    mainRun ["a"] v9 96 = .ok ([(0, "frame_96.txt"), (1, "frame_97.txt"),
      (2, "frame_98.txt"), (3, "frame_99.txt"), (4, "frame_100.txt")], 102)
    ∧ localMaxKey ["a"] v9.box = .ok 5
    ∧ fileName 96 0 (Nat.repr 100).length = "frame_096.txt"
    ∧ ((0, "frame_096.txt") : Nat × String) ∉
        [(0, "frame_96.txt"), (1, "frame_97.txt"), (2, "frame_98.txt"),
         (3, "frame_99.txt"), (4, "frame_100.txt")]
    ∧ (96 : Nat) < 100
    ∧ ("frame_100.txt" : String) < "frame_96.txt" := by
  refine ⟨by decide, by decide, by decide, by decide, by decide, ?_⟩
  rw [String.lt_iff_toList_lt]
  decide

/-- C9 amended: every exported label artifact is named
`frame_<offset + local frame>` zero-padded to the width of the largest
*local* frame key of the current video's label map (not the largest
global index of the run; coincidence of lexicographic and numeric order
is accordingly not guaranteed once offsets push indices past that
width). -/
theorem filename_padding_amended (labels : List String) (v : VideoLabel) (offset : Nat)
    (files : List (Nat × String)) (ret : Nat) (maxFrame : Nat)
    (hmax : localMaxKey labels v.box = .ok maxFrame)
    (hrun : mainRun labels v offset = .ok (files, ret)) :
    ∀ p ∈ files, p.2 = fileName offset p.1 (Nat.repr maxFrame).length := by
  unfold localMaxKey at hmax
  cases hpb : processBox labels v.box with
  | error e =>
    rw [hpb, error_bind] at hmax
    cases hmax
  | ok fd =>
    rw [hpb, ok_bind] at hmax
    unfold mainRun at hrun
    cases hba : buildAvailable v.box with
    | error e =>
      rw [hba, error_bind] at hrun
      cases hrun
    | ok mask =>
      rw [hba, ok_bind, hpb, ok_bind, hmax, ok_bind] at hrun
      cases hw : writeLabels (sortFD fd) mask offset (Nat.repr maxFrame).length with
      | error e =>
        rw [hw, error_bind] at hrun
        cases hrun
      | ok wfiles =>
        rw [hw, ok_bind] at hrun
        have hfiles : wfiles = files := by
          cases hrun
          rfl
        subst hfiles
        intro p hp
        rw [writeLabels_ok hw] at hp
        rw [List.mem_map] at hp
        obtain ⟨q, _, hq⟩ := hp
        rw [← hq]

/-- C9 amended witness: in `v9` at offset 96 the written name of local
frame 4 is `frame_100.txt` = `fileName 96 4` with padding width
`len(str(5)) = 1`. -/
theorem filename_padding_amended_witness :
    ("frame_100.txt" : String) = fileName 96 4 (Nat.repr 5).length :=
  (filename_padding_amended ["a"] v9 96 [(0, "frame_96.txt"), (1, "frame_97.txt"),
      (2, "frame_98.txt"), (3, "frame_99.txt"), (4, "frame_100.txt")] 102 5
    (by decide) (by decide)) (4, "frame_100.txt") (by decide)

/-- C10: `main` leaves the caller's `video_label` record unchanged — the
loop at line 63 iterates over `copy.deepcopy(video_label['box'])`, and
the in-place normalization of lines 80–85 therefore only touches the
copy.  The normalization is not the identity: had the loop iterated over
the input directly, the record would have changed (witnessed at `vA`). -/
theorem input_immutability (labels : List String) (v : VideoLabel) (offset : Nat) :
    (mainFull labels v offset).2 = v
    ∧ mainPostNoDeepcopy vA ≠ vA := by
  exact ⟨rfl, by decide⟩

/-- C10 witness: processing `vA` returns `vA` itself as the post-call
state of the input record. -/
theorem input_immutability_witness : (mainFull ["a"] vA 0).2 = vA :=
  (input_immutability ["a"] vA 0).1

end LS2Yolo
